import Mathlib

/-!
Shallow embedding of the adaptive quiz engine of `src/app.py`: the
question bank model, the performance tracker (`record_answer`,
`compute_accuracies`, `weakest_topics`), the diagnostic exam builder
(`build_diagnostic_exam`), the personalized practice sampler
(`personalized_questions`) and the quiz session state machine
(`start_exam_session` and the Submit / Next flow of
`show_question_flow`).

Randomness is made explicit: `random.choice` is modelled by an index
stream (`nthChoice` applied to stream values), `random.sample` by a
sampling-function parameter constrained by `SampleValid`, and
`random.shuffle` by a permutation parameter.  The `while` loop of
`build_diagnostic_exam` is modelled with explicit fuel (`topUpLoop`);
running out of fuel returns `none`, so `none` for every fuel value
means the source loop does not terminate.
-/

/-- Difficulty levels, the `DIFFICULTIES` strings of the source. -/
inductive Difficulty : Type
  | easy
  | medium
  | hard
deriving DecidableEq

/-- A validated question record, as loaded by `load_banks_from_jsonl`. -/
structure Question : Type where
  id : String
  topic : String
  difficulty : Difficulty
  question : String
  options : List String
  answer : String
  explanation : String
deriving DecidableEq

/-- The difficulty order used by the source, `["easy", "medium", "hard"]`. -/
def DIFFICULTIES : List Difficulty := [.easy, .medium, .hard]

/-- Placeholder question used only to make list indexing total; every
indexing in the development is performed in bounds. -/
def defaultQuestion : Question :=
  { id := "", topic := "", difficulty := .easy, question := "", options := [],
    answer := "", explanation := "" }

/-- The `BY_TOPIC_DIFFICULTY[topic][difficulty]` list: the bank questions of
the given topic and difficulty, in bank order. -/
def bucket (bank : List Question) (t : String) (d : Difficulty) : List Question :=
  bank.filter (fun q => decide (q.topic = t ∧ q.difficulty = d))

/-- Model of `TOPICS = sorted({q["topic"] for q in ALL_QUESTIONS})`: the distinct
topics of the bank in alphabetical order. -/
def TOPICS (bank : List Question) : List String :=
  List.insertionSort (fun a b => a ≤ b) ((bank.map (fun q => q.topic)).dedup)

/-- The global per-topic counters of `init_global_stats`.  The source keeps
two dicts whose key set is exactly `TOPICS`; we model them as total
functions and guard every dict access by membership in `TOPICS`. -/
structure Stats : Type where
  topic_correct : String → Nat
  topic_total : String → Nat

/-- Model of `init_global_stats`: every counter starts at zero. -/
def init_global_stats : Stats :=
  { topic_correct := fun _ => 0, topic_total := fun _ => 0 }

/-- Model of `record_answer(topic, is_correct)`.  The source does
`stats["topic_total"][topic] += 1`, which raises `KeyError` (before any
mutation) when `topic` is not a key, i.e. not a member of `TOPICS`;
that failure is modelled by `none`. -/
def record_answer (bank : List Question) (stats : Stats) (topic : String)
    (is_correct : Bool) : Option Stats :=
  if topic ∈ TOPICS bank then
    some { topic_total := fun t =>
             if t = topic then stats.topic_total t + 1 else stats.topic_total t,
           topic_correct := fun t =>
             if is_correct ∧ t = topic then stats.topic_correct t + 1
             else stats.topic_correct t }
  else none

/-- Model of `sum(stats["topic_total"].values())`: the dict keys are exactly
`TOPICS`, so this is the sum of the totals over `TOPICS`. -/
def sumTotals (bank : List Question) (stats : Stats) : Nat :=
  ((TOPICS bank).map stats.topic_total).sum

/-- Model of `compute_accuracies`: `correct / total` when `total > 0`, else `0.5`.
The source uses Python floats; exact rational arithmetic models it. -/
def compute_accuracies (stats : Stats) (t : String) : ℚ :=
  if 0 < stats.topic_total t then
    (stats.topic_correct t : ℚ) / (stats.topic_total t : ℚ)
  else 1/2

/-- Constant `WEAK_THRESHOLD = 0.7`. -/
def WEAK_THRESHOLD : ℚ := 7/10

/-- Constant `WEAK_MAX_TOPICS = 3`. -/
def WEAK_MAX_TOPICS : Nat := 3

/-- Model of `weakest_topics(stats, threshold, k)`: the topics whose accuracy is
strictly below `threshold`, sorted ascending by accuracy and truncated to
`k`.  Python `list.sort` is stable, as is `List.insertionSort`, so ties
keep the (alphabetical) `TOPICS` order. -/
def weakest_topics (bank : List Question) (stats : Stats) (threshold : ℚ)
    (k : Nat) : List String :=
  let acc := compute_accuracies stats
  let weak := ((TOPICS bank).filter (fun t => decide (acc t < threshold))).map
    (fun t => (t, acc t))
  let sorted := List.insertionSort (fun a b : String × ℚ => a.2 ≤ b.2) weak
  (sorted.take k).map (fun p => p.1)

/-- Python 3 `round`: round half to even (banker's rounding), on exact
rationals. -/
def pyRound (x : ℚ) : ℤ :=
  if x - ⌊x⌋ < 1/2 then ⌊x⌋
  else if (1 : ℚ)/2 < x - ⌊x⌋ then ⌊x⌋ + 1
  else if ⌊x⌋ % 2 = 0 then ⌊x⌋ else ⌊x⌋ + 1

/-- The weak-topic part of the bank, `weak_q` of `personalized_questions`. -/
def weakPool (bank : List Question) (stats : Stats) : List Question :=
  bank.filter
    (fun q => decide (q.topic ∈ weakest_topics bank stats WEAK_THRESHOLD WEAK_MAX_TOPICS))

/-- The remaining part of the bank, `other_q` of `personalized_questions`. -/
def otherPool (bank : List Question) (stats : Stats) : List Question :=
  bank.filter
    (fun q => decide (q.topic ∉ weakest_topics bank stats WEAK_THRESHOLD WEAK_MAX_TOPICS))

/-- The clamped request `n = min(n, len(ALL_QUESTIONS))`. -/
def clampN (bank : List Question) (n : Nat) : Nat := min n bank.length

/-- The target `n_weak_target = max(1, int(round(0.7 * n)))` on the clamped `n`. -/
def nWeakTarget (bank : List Question) (n : Nat) : Nat :=
  max 1 (pyRound (7 * (clampN bank n : ℚ) / 10)).toNat

/-- Contract of Python's `random.sample(pool, k)` for `k <= len(pool)`
(the source always passes `k = min(..., len(pool))`): the result has
length `k`, consists of pool elements, and repeats no element of a
duplicate-free pool.  The first argument tags the call site. -/
def SampleValid (sample : Nat → List Question → Nat → List Question) : Prop :=
  ∀ i pool k, k ≤ pool.length →
    (sample i pool k).length = k ∧ (∀ q ∈ sample i pool k, q ∈ pool) ∧
      (pool.Nodup → (sample i pool k).Nodup)

/-- One fill phase of `personalized_questions`.  Both the other-pool fill
(`remaining = n - len(selected); if remaining > 0: ...`, where in `Nat`
`0 < n - len` is `len < n`) and the final top-up
(`if len(selected) < n: ...`) have exactly this shape: filter out the
already selected questions, and if anything remains sample
`min(n - len(selected), len(pool))` of it. -/
def fillFrom (sample : Nat → List Question → Nat → List Question) (tag : Nat)
    (pool0 : List Question) (n : Nat) (selected : List Question) : List Question :=
  if selected.length < n then
    if pool0.filter (fun q => decide (q ∉ selected)) = [] then selected
    else
      selected ++ sample tag (pool0.filter (fun q => decide (q ∉ selected)))
        (min (n - selected.length) (pool0.filter (fun q => decide (q ∉ selected))).length)
  else selected

/-- Model of `personalized_questions(n)`: the daily practice sampler. -/
def personalized_questions (bank : List Question) (stats : Stats)
    (sample : Nat → List Question → Nat → List Question)
    (shuffle : List Question → List Question) (n0 : Nat) : List Question :=
  if sumTotals bank stats = 0 then
    sample 0 bank (min n0 bank.length)
  else if weakest_topics bank stats WEAK_THRESHOLD WEAK_MAX_TOPICS = [] then
    sample 1 bank (min n0 bank.length)
  else
    let weak_q := weakPool bank stats
    let other_q := otherPool bank stats
    let n := clampN bank n0
    let target := nWeakTarget bank n0
    let selected := sample 2 weak_q (min target weak_q.length)
    let selected := fillFrom sample 3 (if other_q = [] then bank else other_q) n selected
    let selected := fillFrom sample 4 bank n selected
    shuffle selected

/-- Python `random.choice(l)` modelled by an arbitrary index reduced mod the
length; for a nonempty list the result is always an element of `l`. -/
def nthChoice (l : List Question) (i : Nat) : Question :=
  l.getD (i % l.length) defaultQuestion

/-- The `topic_all` list: the topic's questions gathered bucket by bucket in
difficulty order, exactly as the source `extend`s them. -/
def topicAllOf (bank : List Question) (t : String) : List Question :=
  DIFFICULTIES.foldl (fun acc d => acc ++ bucket bank t d) []

/-- The first phase of `build_diagnostic_exam` for one topic: for each
difficulty in order, pick one question from the bucket if it is
nonempty. -/
def phase1Aux (bank : List Question) (t : String) (r : Difficulty → Nat) :
    List Difficulty → List Question → List Question
  | [], picked => picked
  | d :: ds, picked =>
    let candidates := bucket bank t d
    phase1Aux bank t r ds
      (if candidates = [] then picked else picked ++ [nthChoice candidates (r d)])

/-- All three difficulty rounds of the first phase. -/
def phase1 (bank : List Question) (t : String) (r : Difficulty → Nat) : List Question :=
  phase1Aux bank t r DIFFICULTIES []

/-- The `while len(picked) < 3 and topic_all:` top-up loop of
`build_diagnostic_exam`, with fuel.  `none` means the fuel ran out with
the loop condition still true; the source never removes elements from
`topic_all`, which the model mirrors. -/
def topUpLoop (stream : Nat → Nat) (topicAll : List Question) :
    Nat → List Question → Option (List Question)
  | 0, picked =>
      if picked.length < 3 ∧ topicAll ≠ [] then none else some picked
  | fuel + 1, picked =>
      if picked.length < 3 ∧ topicAll ≠ [] then
        topUpLoop stream topicAll fuel
          (if nthChoice topicAll (stream fuel) ∈ picked then picked
           else picked ++ [nthChoice topicAll (stream fuel)])
      else some picked

/-- One topic's contribution to the diagnostic exam, `picked[:3]`. -/
def pickForTopic (bank : List Question) (t : String) (r : Difficulty → Nat)
    (stream : Nat → Nat) (fuel : Nat) : Option (List Question) :=
  (topUpLoop stream (topicAllOf bank t) fuel (phase1 bank t r)).map (fun l => l.take 3)

/-- The concatenation of the per-topic picks over a topic list. -/
def examPicks (bank : List Question) (r : String → Difficulty → Nat)
    (stream : String → Nat → Nat) (fuel : Nat) : List String → Option (List Question)
  | [] => some []
  | t :: ts =>
    match pickForTopic bank t (r t) (stream t) fuel with
    | none => none
    | some p =>
      match examPicks bank r stream fuel ts with
      | none => none
      | some rest => some (p ++ rest)

/-- Model of `build_diagnostic_exam()`: per-topic stratified picks over `TOPICS`,
then a full shuffle. -/
def build_diagnostic_exam (bank : List Question) (r : String → Difficulty → Nat)
    (stream : String → Nat → Nat) (fuel : Nat)
    (shuffle : List Question → List Question) : Option (List Question) :=
  (examPicks bank r stream fuel (TOPICS bank)).map shuffle

/-- The session dict created by `start_exam_session`. -/
structure Session : Type where
  questions : List Question
  i : Nat
  score : Nat
  done : Bool
  answered : Bool
  last_feedback : Option (String × String)
deriving DecidableEq

/-- Model of `start_exam_session(kind, questions)`: the fresh session value.  The
source performs no emptiness check on `questions`. -/
def start_exam_session (questions : List Question) : Session :=
  { questions := questions, i := 0, score := 0, done := false, answered := false,
    last_feedback := none }

/-- The success feedback message of `show_question_flow`. -/
def successMsg (q : Question) : String :=
  "✅ Correct!\n\n**Explanation:** " ++ q.explanation

/-- The failure feedback message of `show_question_flow`. -/
def errorMsg (q : Question) : String :=
  "❌ Incorrect.\n\n**Correct answer:** " ++ q.answer ++ "\n\n**Explanation:** "
    ++ q.explanation

/-- The Submit branch of `show_question_flow`.  It is reachable only when
the session is not done (early return) and not answered (button hidden
otherwise); `none` models the transition being unavailable, or the
`record_answer` failure.  In every state reachable from a nonempty
question list the index `i` is in bounds when `done` is false. -/
def submit (bank : List Question) (choice : String) (s : Session) (st : Stats) :
    Option (Session × Stats) :=
  if s.done then none
  else if s.answered then none
  else
    match record_answer bank st (s.questions.getD s.i defaultQuestion).topic
        (decide (choice = (s.questions.getD s.i defaultQuestion).answer)) with
    | none => none
    | some st' =>
        some ({ s with
                score := if decide (choice = (s.questions.getD s.i defaultQuestion).answer)
                  then s.score + 1 else s.score
                answered := true
                last_feedback := some
                  (if decide (choice = (s.questions.getD s.i defaultQuestion).answer)
                   then ("success", successMsg (s.questions.getD s.i defaultQuestion))
                   else ("error", errorMsg (s.questions.getD s.i defaultQuestion))) },
              st')

/-- The Next-Question branch of `show_question_flow`: available only when
not done and already answered; increments `i`, clears the per-question
state and sets `done` once `i` reaches the question count. -/
def advance (s : Session) (st : Stats) : Option (Session × Stats) :=
  if s.done then none
  else if s.answered then
    some ({ s with
            i := s.i + 1
            answered := false
            last_feedback := none
            done := decide (s.questions.length ≤ s.i + 1) }, st)
  else none

/-- A user operation on a session. -/
inductive Op : Type
  | submit (choice : String)
  | advance

/-- Apply one operation; an unavailable transition leaves the state
unchanged (the page is simply re-rendered). -/
def applyOp (bank : List Question) (op : Op) (p : Session × Stats) : Session × Stats :=
  match op with
  | .submit choice => (submit bank choice p.1 p.2).getD p
  | .advance => (advance p.1 p.2).getD p

/-- Run a sequence of operations from a state. -/
def runOps (bank : List Question) (ops : List Op) (p : Session × Stats) :
    Session × Stats :=
  ops.foldl (fun p op => applyOp bank op p) p

/-! ### Facts about the topic list -/

lemma TOPICS_sorted (bank : List Question) :
    (TOPICS bank).Sorted (fun a b : String => a ≤ b) :=
  List.sorted_insertionSort _ _

lemma TOPICS_nodup (bank : List Question) : (TOPICS bank).Nodup := by
  unfold TOPICS
  exact ((List.perm_insertionSort _ _).nodup_iff).mpr (List.nodup_dedup _)

lemma mem_TOPICS {bank : List Question} {t : String} :
    t ∈ TOPICS bank ↔ ∃ q ∈ bank, q.topic = t := by
  unfold TOPICS
  rw [List.mem_insertionSort, List.mem_dedup, List.mem_map]

lemma TOPICS_pairwise_lt (bank : List Question) :
    (TOPICS bank).Pairwise (fun a b : String => a < b) :=
  List.Sorted.lt_of_le (TOPICS_sorted bank) (TOPICS_nodup bank)

/-! ### Stability of the weak-topic sort

Python's `list.sort` is stable; `List.insertionSort` is the canonical
stable sort, so the embedding sorts the `(topic, accuracy)` pairs with
`insertionSort` on the accuracy key.  The next two lemmas show that a
stable key-sort of an alphabetically ordered pair list is ordered by
accuracy with alphabetical ties. -/

/-- Strictly increasing accuracy, alphabetical on ties. -/
def pairLex (p q : String × ℚ) : Prop :=
  p.2 < q.2 ∨ (p.2 = q.2 ∧ p.1 < q.1)

lemma orderedInsert_pairLex (a : String × ℚ) (l : List (String × ℚ))
    (hl : l.Pairwise pairLex) (ha : ∀ x ∈ l, a.1 < x.1) :
    (List.orderedInsert (fun p q : String × ℚ => p.2 ≤ q.2) a l).Pairwise pairLex := by
  induction l with
  | nil => simp [List.orderedInsert]
  | cons b l ih =>
    rw [List.orderedInsert]
    by_cases hab : a.2 ≤ b.2
    · rw [if_pos hab]
      refine List.Pairwise.cons ?_ hl
      intro x hx
      rcases List.mem_cons.mp hx with rfl | hxl
      · rcases lt_or_eq_of_le hab with h | h
        · exact Or.inl h
        · exact Or.inr ⟨h, ha x (List.mem_cons_self _ _)⟩
      · have hbx := (List.pairwise_cons.mp hl).1 x hxl
        have hb2 : b.2 ≤ x.2 := by
          rcases hbx with h | h
          · exact le_of_lt h
          · exact le_of_eq h.1
        rcases lt_or_eq_of_le (le_trans hab hb2) with h | h
        · exact Or.inl h
        · exact Or.inr ⟨h, ha x (List.mem_cons_of_mem _ hxl)⟩
    · rw [if_neg hab]
      refine List.Pairwise.cons ?_
        (ih (List.pairwise_cons.mp hl).2 (fun x hx => ha x (List.mem_cons_of_mem _ hx)))
      intro x hx
      rcases (List.mem_orderedInsert _).mp hx with rfl | hxl
      · exact Or.inl (lt_of_not_le hab)
      · exact (List.pairwise_cons.mp hl).1 x hxl

lemma insertionSort_pairLex (l : List (String × ℚ))
    (hl : l.Pairwise (fun p q : String × ℚ => p.1 < q.1)) :
    (List.insertionSort (fun p q : String × ℚ => p.2 ≤ q.2) l).Pairwise pairLex := by
  induction l with
  | nil => simp [List.insertionSort]
  | cons a l ih =>
    rw [List.insertionSort]
    refine orderedInsert_pairLex a _ (ih (List.pairwise_cons.mp hl).2) ?_
    intro x hx
    exact (List.pairwise_cons.mp hl).1 x ((List.mem_insertionSort _).mp hx)

/-! ### Properties of `weakest_topics` -/

lemma mem_weakest_topics_pairs {bank : List Question} {stats : Stats}
    {threshold : ℚ} {p : String × ℚ}
    (hp : p ∈ ((TOPICS bank).filter
      (fun t => decide (compute_accuracies stats t < threshold))).map
        (fun t => (t, compute_accuracies stats t))) :
    p.2 = compute_accuracies stats p.1 ∧ compute_accuracies stats p.1 < threshold := by
  obtain ⟨t, ht, rfl⟩ := List.mem_map.mp hp
  exact ⟨rfl, of_decide_eq_true (List.mem_filter.mp ht).2⟩

lemma weakest_topics_length_le (bank : List Question) (stats : Stats)
    (threshold : ℚ) (k : Nat) :
    (weakest_topics bank stats threshold k).length ≤ k := by
  unfold weakest_topics
  simp [List.length_take]

lemma acc_lt_of_mem_weakest_topics {bank : List Question} {stats : Stats}
    {threshold : ℚ} {k : Nat} {t : String}
    (ht : t ∈ weakest_topics bank stats threshold k) :
    compute_accuracies stats t < threshold := by
  unfold weakest_topics at ht
  obtain ⟨p, hp, rfl⟩ := List.mem_map.mp ht
  have hp2 : p ∈ List.insertionSort (fun a b : String × ℚ => a.2 ≤ b.2) _ :=
    List.take_subset _ _ hp
  exact (mem_weakest_topics_pairs ((List.mem_insertionSort _).mp hp2)).2

lemma weakest_topics_pairwise (bank : List Question) (stats : Stats)
    (threshold : ℚ) (k : Nat) :
    (weakest_topics bank stats threshold k).Pairwise (fun t1 t2 =>
      compute_accuracies stats t1 < compute_accuracies stats t2 ∨
        (compute_accuracies stats t1 = compute_accuracies stats t2 ∧ t1 < t2)) := by
  unfold weakest_topics
  apply List.pairwise_map.mpr
  have hw : (((TOPICS bank).filter
      (fun t => decide (compute_accuracies stats t < threshold))).map
        (fun t => (t, compute_accuracies stats t))).Pairwise
      (fun p q : String × ℚ => p.1 < q.1) := by
    apply List.pairwise_map.mpr
    exact ((TOPICS_pairwise_lt bank).filter _)
  have hs := insertionSort_pairLex _ hw
  have h1 := hs.sublist (List.take_sublist k _)
  refine List.Pairwise.imp_of_mem ?_ h1
  intro p q hp hq hpl
  have hp' := mem_weakest_topics_pairs
    ((List.mem_insertionSort _).mp (List.take_subset _ _ hp))
  have hq' := mem_weakest_topics_pairs
    ((List.mem_insertionSort _).mp (List.take_subset _ _ hq))
  rcases hpl with h | ⟨h, h2⟩
  · left; rw [← hp'.1, ← hq'.1]; exact h
  · right
    exact ⟨by rw [← hp'.1, ← hq'.1]; exact h, h2⟩

/-- Claim C8: for every stats state, threshold and `k`, `weakest_topics`
returns at most `k` topics, every returned topic has accuracy strictly
below the threshold, and the result is sorted ascending by accuracy with
topics of equal accuracy in alphabetical order. -/
theorem weakest_topics_spec (bank : List Question) (stats : Stats)
    (threshold : ℚ) (k : Nat) :
    (weakest_topics bank stats threshold k).length ≤ k ∧
    (∀ t ∈ weakest_topics bank stats threshold k,
      compute_accuracies stats t < threshold) ∧
    (weakest_topics bank stats threshold k).Pairwise (fun t1 t2 =>
      compute_accuracies stats t1 < compute_accuracies stats t2 ∨
        (compute_accuracies stats t1 = compute_accuracies stats t2 ∧ t1 < t2)) :=
  ⟨weakest_topics_length_le bank stats threshold k,
   fun _ ht => acc_lt_of_mem_weakest_topics ht,
   weakest_topics_pairwise bank stats threshold k⟩

/-- Claim C9: `record_answer` fails (a `KeyError` on the stats dict, whose
key set is the fixed topic set) exactly when the topic is not a member of
`TOPICS`; for a member topic it increments that topic's `total` counter by
one and its `correct` counter by one exactly when the answer was correct. -/
theorem record_answer_spec (bank : List Question) (stats : Stats)
    (topic : String) (c : Bool) :
    (topic ∉ TOPICS bank → record_answer bank stats topic c = none) ∧
    (topic ∈ TOPICS bank →
      ∃ s', record_answer bank stats topic c = some s' ∧
        s'.topic_total topic = stats.topic_total topic + 1 ∧
        (c = true → s'.topic_correct topic = stats.topic_correct topic + 1) ∧
        (c = false → s'.topic_correct topic = stats.topic_correct topic)) := by
  constructor
  · intro h
    simp only [record_answer, if_neg h]
  · intro h
    simp only [record_answer, if_pos h]
    refine ⟨_, rfl, ?_, ?_, ?_⟩
    · simp
    · intro hc; simp [hc]
    · intro hc; simp [hc]

/-- A concrete "History" question, used by several concrete checks. -/
def qH1 : Question :=
  { id := "h1", topic := "History", difficulty := .easy, question := "q",
    options := ["a", "b"], answer := "a", explanation := "e" }

/-- A second question of the same topic and difficulty. -/
def qH2 : Question :=
  { id := "h2", topic := "History", difficulty := .easy, question := "q2",
    options := ["a", "b"], answer := "b", explanation := "e" }

/-- The one-question bank used by several concrete checks. -/
def B1 : List Question := [qH1]

lemma TOPICS_B1 : TOPICS B1 = ["History"] := by
  simp [TOPICS, B1, qH1, List.insertionSort]

theorem record_answer_spec_witness :
    ("X" ∉ TOPICS B1 ∧ record_answer B1 init_global_stats "X" true = none) ∧
    ("History" ∈ TOPICS B1 ∧
      ∃ s', record_answer B1 init_global_stats "History" true = some s' ∧
        s'.topic_total "History" = init_global_stats.topic_total "History" + 1 ∧
        (true = true →
          s'.topic_correct "History" = init_global_stats.topic_correct "History" + 1) ∧
        (true = false →
          s'.topic_correct "History" = init_global_stats.topic_correct "History")) := by
  have hX : "X" ∉ TOPICS B1 := by rw [TOPICS_B1]; simp
  have hH : "History" ∈ TOPICS B1 := by rw [TOPICS_B1]; simp
  exact ⟨⟨hX, (record_answer_spec B1 init_global_stats "X" true).1 hX⟩,
         ⟨hH, (record_answer_spec B1 init_global_stats "History" true).2 hH⟩⟩

/-- Claim C5 (amended): `start_exam_session` performs no emptiness check;
for every question list, including the empty one, it returns a session
with position 0, score 0, not complete, not answered, and no pending
feedback. -/
theorem start_exam_session_spec (qs : List Question) :
    (start_exam_session qs).questions = qs ∧ (start_exam_session qs).i = 0 ∧
    (start_exam_session qs).score = 0 ∧ (start_exam_session qs).done = false ∧
    (start_exam_session qs).answered = false ∧
    (start_exam_session qs).last_feedback = none :=
  ⟨rfl, rfl, rfl, rfl, rfl, rfl⟩

/-- Counterexample to claim C5 as stated: starting a session on the empty
question list does not fail — the source `start_exam_session` assigns the
fresh session dict unconditionally, so an in-progress (not-done) session
with no questions is produced instead of an `EmptyQuestionList` error. -/
theorem start_exam_session_empty_cex :
    start_exam_session ([] : List Question) =
      { questions := [], i := 0, score := 0, done := false, answered := false,
        last_feedback := none } :=
  rfl

/-- Concrete computation: on the one-question bank with fresh stats, the
unseen topic has accuracy 1/2 and is selected by `weakest_topics` at the
default threshold. -/
lemma weakest_B1_init : weakest_topics B1 init_global_stats (7/10) 3 = ["History"] := by
  have h : ((2 : ℚ)⁻¹ < 7/10) := by norm_num
  simp [weakest_topics, TOPICS_B1, compute_accuracies, init_global_stats, h,
    List.insertionSort]

/-- Counterexample to claim C2 as stated: with no answers recorded at all
(the sum of the `total` counters is zero), `weakest_topics` does not
return the empty sequence — every unseen topic has accuracy 1/2, below
the default threshold 0.7, so the alphabetically first topics are
returned. -/
theorem weakest_topics_no_data_cex :
    sumTotals B1 init_global_stats = 0 ∧
    weakest_topics B1 init_global_stats (7/10) 3 ≠ [] := by
  constructor
  · simp [sumTotals, TOPICS_B1, init_global_stats]
  · rw [weakest_B1_init]; simp

/-- Claim C2 (amended): the no-data state is checked by the caller, not by
`weakest_topics`: when the sum of all `total` counters is zero,
`personalized_questions` bypasses weak-topic personalization entirely and
returns a uniform random sample of `min(n, bank size)` distinct bank
questions. -/
theorem personalized_no_data (bank : List Question) (stats : Stats)
    (sample : Nat → List Question → Nat → List Question)
    (shuffle : List Question → List Question) (n : Nat)
    (hs : SampleValid sample) (hbank : bank.Nodup)
    (h0 : sumTotals bank stats = 0) :
    (personalized_questions bank stats sample shuffle n).Nodup ∧
    (personalized_questions bank stats sample shuffle n).length = min n bank.length ∧
    ∀ q ∈ personalized_questions bank stats sample shuffle n, q ∈ bank := by
  have hbranch : personalized_questions bank stats sample shuffle n
      = sample 0 bank (min n bank.length) := by
    unfold personalized_questions
    rw [if_pos h0]
  obtain ⟨h1, h2, h3⟩ := hs 0 bank (min n bank.length) (min_le_right _ _)
  rw [hbranch]
  exact ⟨h3 hbank, h1, h2⟩

/-- One concrete valid sampler: take the first `k` pool elements. -/
def takeSample (_i : Nat) (pool : List Question) (k : Nat) : List Question :=
  pool.take k

lemma takeSample_valid : SampleValid takeSample := by
  intro i pool k hk
  refine ⟨?_, ?_, ?_⟩
  · simp [takeSample, List.length_take, min_eq_left hk]
  · intro q hq
    exact List.take_subset _ _ hq
  · intro hnd
    exact hnd.sublist (List.take_sublist _ _)

theorem personalized_no_data_witness :
    (personalized_questions B1 init_global_stats takeSample id 1).Nodup ∧
    (personalized_questions B1 init_global_stats takeSample id 1).length
      = min 1 B1.length ∧
    ∀ q ∈ personalized_questions B1 init_global_stats takeSample id 1, q ∈ B1 :=
  personalized_no_data B1 init_global_stats takeSample id 1 takeSample_valid
    (by simp [B1]) (by simp [sumTotals, TOPICS_B1, init_global_stats])

/-- Claim C3 (amended): a topic with `total = 0` has accuracy exactly
`0.5`, and it escapes the weak classification only for thresholds at or
below `0.5`; at the default threshold `0.7` its accuracy `0.5` satisfies
the weak condition, so such a topic can be flagged weak. -/
theorem accuracy_unseen_spec (bank : List Question) (stats : Stats)
    (t : String) (threshold : ℚ) (k : Nat) (h0 : stats.topic_total t = 0) :
    compute_accuracies stats t = 1/2 ∧
    (threshold ≤ 1/2 → t ∉ weakest_topics bank stats threshold k) := by
  have hacc : compute_accuracies stats t = 1/2 := by
    simp [compute_accuracies, h0]
  refine ⟨hacc, fun hth ht => ?_⟩
  have hlt := acc_lt_of_mem_weakest_topics ht
  rw [hacc] at hlt
  exact absurd (lt_of_lt_of_le hlt hth) (lt_irrefl _)

theorem accuracy_unseen_spec_witness :
    compute_accuracies init_global_stats "History" = 1/2 ∧
    ((1 : ℚ)/2 ≤ 1/2 → "History" ∉ weakest_topics B1 init_global_stats (1/2) 3) :=
  accuracy_unseen_spec B1 init_global_stats "History" (1/2) 3 rfl

/-- Counterexample to claim C3 as stated: with the default threshold 0.70
an unseen topic (accuracy exactly 1/2) is flagged weak. -/
theorem accuracy_unseen_cex :
    init_global_stats.topic_total "History" = 0 ∧
    compute_accuracies init_global_stats "History" = 1/2 ∧
    "History" ∈ weakest_topics B1 init_global_stats (7/10) 3 := by
  refine ⟨rfl, by simp [compute_accuracies, init_global_stats], ?_⟩
  rw [weakest_B1_init]
  simp

/-! ### Facts about the diagnostic exam builder -/

lemma nthChoice_mem {l : List Question} (h : l ≠ []) (i : Nat) : nthChoice l i ∈ l := by
  unfold nthChoice
  have hlen : 0 < l.length := List.length_pos.mpr h
  have hmod : i % l.length < l.length := Nat.mod_lt _ hlen
  rw [List.getD_eq_getElem l defaultQuestion hmod]
  exact List.getElem_mem hmod

lemma mem_bucket {bank : List Question} {t : String} {d : Difficulty} {q : Question} :
    q ∈ bucket bank t d ↔ q ∈ bank ∧ q.topic = t ∧ q.difficulty = d := by
  simp [bucket, List.mem_filter]

lemma topicAllOf_eq (bank : List Question) (t : String) :
    topicAllOf bank t =
      bucket bank t .easy ++ (bucket bank t .medium ++ bucket bank t .hard) := by
  simp [topicAllOf, DIFFICULTIES]

lemma mem_topicAllOf {bank : List Question} {t : String} {q : Question} :
    q ∈ topicAllOf bank t ↔ q ∈ bank ∧ q.topic = t := by
  rw [topicAllOf_eq]
  constructor
  · intro h
    rcases List.mem_append.mp h with h | h
    · exact ⟨(mem_bucket.mp h).1, (mem_bucket.mp h).2.1⟩
    · rcases List.mem_append.mp h with h | h
      · exact ⟨(mem_bucket.mp h).1, (mem_bucket.mp h).2.1⟩
      · exact ⟨(mem_bucket.mp h).1, (mem_bucket.mp h).2.1⟩
  · rintro ⟨h1, h2⟩
    cases hd : q.difficulty with
    | easy => exact List.mem_append.mpr (Or.inl (mem_bucket.mpr ⟨h1, h2, hd⟩))
    | medium =>
        exact List.mem_append.mpr (Or.inr (List.mem_append.mpr
          (Or.inl (mem_bucket.mpr ⟨h1, h2, hd⟩))))
    | hard =>
        exact List.mem_append.mpr (Or.inr (List.mem_append.mpr
          (Or.inr (mem_bucket.mpr ⟨h1, h2, hd⟩))))

lemma phase1Aux_spec (bank : List Question) (t : String) (r : Difficulty → Nat) :
    ∀ (ds : List Difficulty) (picked : List Question),
      picked.Nodup →
      (∀ q ∈ picked, q ∈ bank ∧ q.topic = t) →
      (∀ q ∈ picked, ∀ d ∈ ds, q.difficulty ≠ d) →
      ds.Nodup →
      (phase1Aux bank t r ds picked).Nodup ∧
        ∀ q ∈ phase1Aux bank t r ds picked, q ∈ bank ∧ q.topic = t := by
  intro ds
  induction ds with
  | nil =>
    intro picked h1 h2 _ _
    exact ⟨h1, h2⟩
  | cons d ds ih =>
    intro picked h1 h2 h3 h4
    simp only [phase1Aux]
    by_cases hc : bucket bank t d = []
    · rw [if_pos hc]
      exact ih picked h1 h2
        (fun q hq d' hd' => h3 q hq d' (List.mem_cons_of_mem _ hd'))
        (List.nodup_cons.mp h4).2
    · rw [if_neg hc]
      have hcmem : nthChoice (bucket bank t d) (r d) ∈ bucket bank t d :=
        nthChoice_mem hc (r d)
      have hcb := mem_bucket.mp hcmem
      apply ih
      · rw [List.nodup_append]
        refine ⟨h1, List.nodup_singleton _, ?_⟩
        intro a ha hb
        rw [List.mem_singleton] at hb
        subst hb
        exact h3 _ ha d (List.mem_cons_self _ _) hcb.2.2
      · intro q hq
        rcases List.mem_append.mp hq with h | h
        · exact h2 q h
        · rw [List.mem_singleton] at h
          subst h
          exact ⟨hcb.1, hcb.2.1⟩
      · intro q hq d' hd'
        rcases List.mem_append.mp hq with h | h
        · exact h3 q h d' (List.mem_cons_of_mem _ hd')
        · rw [List.mem_singleton] at h
          subst h
          rw [hcb.2.2]
          intro hdd'
          exact (List.nodup_cons.mp h4).1 (hdd' ▸ hd')
      · exact (List.nodup_cons.mp h4).2

lemma phase1_spec (bank : List Question) (t : String) (r : Difficulty → Nat) :
    (phase1 bank t r).Nodup ∧ ∀ q ∈ phase1 bank t r, q ∈ bank ∧ q.topic = t := by
  apply phase1Aux_spec bank t r DIFFICULTIES []
  · exact List.nodup_nil
  · intro q hq; cases hq
  · intro q hq; cases hq
  · simp [DIFFICULTIES]

lemma topUpLoop_of_ge (stream : Nat → Nat) (topicAll : List Question) (fuel : Nat)
    (picked : List Question) (h : ¬ picked.length < 3) :
    topUpLoop stream topicAll fuel picked = some picked := by
  cases fuel with
  | zero => rw [topUpLoop, if_neg (fun hc => h hc.1)]
  | succ n => rw [topUpLoop, if_neg (fun hc => h hc.1)]

lemma topUpLoop_some_spec (stream : Nat → Nat) (topicAll : List Question) :
    ∀ (fuel : Nat) (picked out : List Question),
      topUpLoop stream topicAll fuel picked = some out →
      (picked.Nodup → out.Nodup) ∧ ∀ q ∈ out, q ∈ picked ∨ q ∈ topicAll := by
  intro fuel
  induction fuel with
  | zero =>
    intro picked out h
    rw [topUpLoop] at h
    by_cases hc : picked.length < 3 ∧ topicAll ≠ []
    · rw [if_pos hc] at h; cases h
    · rw [if_neg hc] at h
      injection h with h
      subst h
      exact ⟨id, fun q hq => Or.inl hq⟩
  | succ n ih =>
    intro picked out h
    rw [topUpLoop] at h
    by_cases hc : picked.length < 3 ∧ topicAll ≠ []
    · rw [if_pos hc] at h
      have hcmem : nthChoice topicAll (stream n) ∈ topicAll := nthChoice_mem hc.2 _
      obtain ⟨ha, hb⟩ := ih _ out h
      constructor
      · intro hnd
        apply ha
        by_cases hcp : nthChoice topicAll (stream n) ∈ picked
        · rw [if_pos hcp]; exact hnd
        · rw [if_neg hcp]
          rw [List.nodup_append]
          refine ⟨hnd, List.nodup_singleton _, ?_⟩
          intro a haa hbb
          rw [List.mem_singleton] at hbb
          subst hbb
          exact hcp haa
      · intro q hq
        rcases hb q hq with h1 | h1
        · by_cases hcp : nthChoice topicAll (stream n) ∈ picked
          · rw [if_pos hcp] at h1; exact Or.inl h1
          · rw [if_neg hcp] at h1
            rcases List.mem_append.mp h1 with h2 | h2
            · exact Or.inl h2
            · rw [List.mem_singleton] at h2
              subst h2
              exact Or.inr hcmem
        · exact Or.inr h1
    · rw [if_neg hc] at h
      injection h with h
      subst h
      exact ⟨id, fun q hq => Or.inl hq⟩

lemma topUpLoop_none (stream : Nat → Nat) (topicAll : List Question)
    (hne : topicAll ≠ []) (hlt : topicAll.dedup.length < 3) :
    ∀ (fuel : Nat) (picked : List Question), picked.Nodup →
      (∀ q ∈ picked, q ∈ topicAll) →
      topUpLoop stream topicAll fuel picked = none := by
  intro fuel
  induction fuel with
  | zero =>
    intro picked h1 h2
    have hlen : picked.length ≤ topicAll.dedup.length :=
      (List.subperm_of_subset h1 (fun q hq => List.mem_dedup.mpr (h2 q hq))).length_le
    rw [topUpLoop, if_pos ⟨lt_of_le_of_lt hlen hlt, hne⟩]
  | succ n ih =>
    intro picked h1 h2
    have hlen : picked.length ≤ topicAll.dedup.length :=
      (List.subperm_of_subset h1 (fun q hq => List.mem_dedup.mpr (h2 q hq))).length_le
    rw [topUpLoop, if_pos ⟨lt_of_le_of_lt hlen hlt, hne⟩]
    have hcmem : nthChoice topicAll (stream n) ∈ topicAll := nthChoice_mem hne _
    by_cases hcp : nthChoice topicAll (stream n) ∈ picked
    · rw [if_pos hcp]
      exact ih picked h1 h2
    · rw [if_neg hcp]
      apply ih
      · rw [List.nodup_append]
        refine ⟨h1, List.nodup_singleton _, ?_⟩
        intro a haa hbb
        rw [List.mem_singleton] at hbb
        subst hbb
        exact hcp haa
      · intro q hq
        rcases List.mem_append.mp hq with h | h
        · exact h2 q h
        · rw [List.mem_singleton] at h
          subst h
          exact hcmem

lemma pickForTopic_some_spec {bank : List Question} {t : String}
    {r : Difficulty → Nat} {stream : Nat → Nat} {fuel : Nat} {out : List Question}
    (h : pickForTopic bank t r stream fuel = some out) :
    out.Nodup ∧ ∀ q ∈ out, q ∈ bank ∧ q.topic = t := by
  unfold pickForTopic at h
  obtain ⟨l, hl, rfl⟩ := Option.map_eq_some'.mp h
  obtain ⟨ha, hb⟩ := topUpLoop_some_spec _ _ fuel _ l hl
  have hp := phase1_spec bank t r
  constructor
  · exact (ha hp.1).sublist (List.take_sublist _ _)
  · intro q hq
    have hq' := List.take_subset _ _ hq
    rcases hb q hq' with h1 | h1
    · exact hp.2 q h1
    · exact mem_topicAllOf.mp h1

lemma examPicks_some_spec (bank : List Question) (r : String → Difficulty → Nat)
    (stream : String → Nat → Nat) (fuel : Nat) :
    ∀ (ts : List String) (ex : List Question),
      examPicks bank r stream fuel ts = some ex →
      (∀ q ∈ ex, q ∈ bank ∧ q.topic ∈ ts) ∧ (ts.Nodup → ex.Nodup) := by
  intro ts
  induction ts with
  | nil =>
    intro ex h
    rw [examPicks] at h
    injection h with h
    subst h
    exact ⟨fun q hq => absurd hq (List.not_mem_nil q), fun _ => List.nodup_nil⟩
  | cons u ts ih =>
    intro ex h
    rw [examPicks] at h
    cases hp : pickForTopic bank u (r u) (stream u) fuel with
    | none => rw [hp] at h; cases h
    | some p =>
      rw [hp] at h
      cases hr : examPicks bank r stream fuel ts with
      | none => rw [hr] at h; cases h
      | some rest =>
        rw [hr] at h
        injection h with h
        subst h
        obtain ⟨hpn, hpm⟩ := pickForTopic_some_spec hp
        obtain ⟨hm, hn⟩ := ih rest hr
        constructor
        · intro q hq
          rcases List.mem_append.mp hq with h4 | h4
          · exact ⟨(hpm q h4).1, (hpm q h4).2 ▸ List.mem_cons_self _ _⟩
          · exact ⟨(hm q h4).1, List.mem_cons_of_mem _ (hm q h4).2⟩
        · intro hnd
          rw [List.nodup_append]
          refine ⟨hpn, hn (List.nodup_cons.mp hnd).2, ?_⟩
          intro a haa hbb
          have h5 := (hpm a haa).2
          have h6 := (hm a hbb).2
          rw [h5] at h6
          exact (List.nodup_cons.mp hnd).1 h6

/-- The two-question bank on which the diagnostic builder diverges: one
topic with only two questions. -/
def BANKBUG : List Question := [qH1, qH2]

lemma TOPICS_BANKBUG : TOPICS BANKBUG = ["History"] := by
  simp [TOPICS, BANKBUG, qH1, qH2, List.insertionSort]

lemma topicAllOf_BANKBUG : topicAllOf BANKBUG "History" = [qH1, qH2] := by
  rw [topicAllOf_eq]
  simp [bucket, BANKBUG, qH1, qH2]

/-- Claim C1 (code bug): on a bank whose topic has fewer than three
questions, `build_diagnostic_exam` does not terminate.  The top-up
`while len(picked) < 3 and topic_all:` loop never removes anything from
`topic_all` and `picked` can never reach three distinct questions, so the
loop condition stays true forever: the fuel-indexed model returns `none`
for every fuel bound, every choice stream and every shuffle. -/
theorem build_diagnostic_exam_diverges (r : String → Difficulty → Nat)
    (stream : String → Nat → Nat) (fuel : Nat)
    (shuffle : List Question → List Question) :
    build_diagnostic_exam BANKBUG r stream fuel shuffle = none := by
  unfold build_diagnostic_exam
  rw [TOPICS_BANKBUG]
  have hnone : pickForTopic BANKBUG "History" (r "History") (stream "History") fuel
      = none := by
    unfold pickForTopic
    rw [topicAllOf_BANKBUG]
    have hdedup : ([qH1, qH2] : List Question).dedup = [qH1, qH2] := by
      have hne : qH1 ≠ qH2 := by simp [qH1, qH2]
      simp [List.dedup_cons_of_not_mem, hne]
    rw [topUpLoop_none (stream "History") [qH1, qH2] (by simp)
      (by rw [hdedup]; simp) fuel (phase1 BANKBUG "History" (r "History"))
      (phase1_spec BANKBUG "History" (r "History")).1
      (fun q hq => (phase1_spec BANKBUG "History" (r "History")).2 q hq |>.1)]
    rfl
  rw [examPicks, hnone]
  rfl

/-- Claim C10: whenever the diagnostic builder returns an exam, the exam
is duplicate-free — within a topic the difficulty buckets are disjoint
and the top-up loop skips already picked questions, and across topics the
questions differ in their topic. -/
theorem build_diagnostic_exam_nodup (bank : List Question)
    (r : String → Difficulty → Nat) (stream : String → Nat → Nat) (fuel : Nat)
    (shuffle : List Question → List Question) (exam : List Question)
    (hsh : ∀ l, List.Perm (shuffle l) l)
    (hrun : build_diagnostic_exam bank r stream fuel shuffle = some exam) :
    exam.Nodup := by
  unfold build_diagnostic_exam at hrun
  obtain ⟨ex, hex, rfl⟩ := Option.map_eq_some'.mp hrun
  exact ((hsh ex).nodup_iff).mpr
    ((examPicks_some_spec bank r stream fuel _ ex hex).2 (TOPICS_nodup bank))

lemma phase1_full {bank : List Question} {t : String} {r : Difficulty → Nat}
    (he : bucket bank t .easy ≠ []) (hm : bucket bank t .medium ≠ [])
    (hh : bucket bank t .hard ≠ []) :
    phase1 bank t r =
      [nthChoice (bucket bank t .easy) (r .easy),
       nthChoice (bucket bank t .medium) (r .medium),
       nthChoice (bucket bank t .hard) (r .hard)] := by
  unfold phase1 DIFFICULTIES
  simp only [phase1Aux]
  rw [if_neg he, if_neg hm, if_neg hh]
  simp

lemma pickForTopic_full {bank : List Question} {t : String} {r : Difficulty → Nat}
    {stream : Nat → Nat} {fuel : Nat}
    (he : bucket bank t .easy ≠ []) (hm : bucket bank t .medium ≠ [])
    (hh : bucket bank t .hard ≠ []) :
    pickForTopic bank t r stream fuel =
      some [nthChoice (bucket bank t .easy) (r .easy),
            nthChoice (bucket bank t .medium) (r .medium),
            nthChoice (bucket bank t .hard) (r .hard)] := by
  unfold pickForTopic
  rw [phase1_full he hm hh, topUpLoop_of_ge _ _ _ _ (by simp)]
  simp

lemma examPicks_filter_count (bank : List Question) (r : String → Difficulty → Nat)
    (stream : String → Nat → Nat) (fuel : Nat) (P : Question → Bool) (t : String)
    (hP : ∀ q, P q = true → q.topic = t) :
    ∀ (ts : List String) (ex : List Question), ts.Nodup → t ∈ ts →
      examPicks bank r stream fuel ts = some ex →
      ∃ l, pickForTopic bank t (r t) (stream t) fuel = some l ∧
        ex.filter P = l.filter P := by
  intro ts
  induction ts with
  | nil =>
    intro ex _ hmem
    exact absurd hmem (List.not_mem_nil t)
  | cons u ts ih =>
    intro ex hnd hmem h
    rw [examPicks] at h
    cases hp : pickForTopic bank u (r u) (stream u) fuel with
    | none => rw [hp] at h; cases h
    | some p =>
      rw [hp] at h
      cases hr : examPicks bank r stream fuel ts with
      | none => rw [hr] at h; cases h
      | some rest =>
        rw [hr] at h
        injection h with h
        subst h
        rcases List.mem_cons.mp hmem with rfl | htm
        · refine ⟨p, hp, ?_⟩
          rw [List.filter_append]
          have hrest0 : rest.filter P = [] := by
            rw [List.filter_eq_nil_iff]
            intro q hq hPq
            have hq' := (examPicks_some_spec bank r stream fuel ts rest hr).1 q hq
            have ht' := hP q hPq
            rw [ht'] at hq'
            exact (List.nodup_cons.mp hnd).1 hq'.2
          rw [hrest0, List.append_nil]
        · have hut : u ≠ t := fun heq => (List.nodup_cons.mp hnd).1 (heq ▸ htm)
          obtain ⟨l, hl, hfilter⟩ := ih rest (List.nodup_cons.mp hnd).2 htm hr
          refine ⟨l, hl, ?_⟩
          rw [List.filter_append]
          have hp0 : p.filter P = [] := by
            rw [List.filter_eq_nil_iff]
            intro q hq hPq
            have hq' := (pickForTopic_some_spec hp).2 q hq
            exact hut (by rw [← hq'.2, hP q hPq])
          rw [hp0, List.nil_append, hfilter]

/-- Claim C7: whenever the diagnostic builder returns an exam, a topic
with a nonempty easy, medium and hard bucket contributes exactly three
questions to the exam, exactly one of each difficulty. -/
theorem build_diagnostic_exam_full_topic (bank : List Question)
    (r : String → Difficulty → Nat) (stream : String → Nat → Nat) (fuel : Nat)
    (shuffle : List Question → List Question) (exam : List Question) (t : String)
    (he : bucket bank t .easy ≠ []) (hm : bucket bank t .medium ≠ [])
    (hh : bucket bank t .hard ≠ [])
    (hsh : ∀ l, List.Perm (shuffle l) l)
    (hrun : build_diagnostic_exam bank r stream fuel shuffle = some exam) :
    (exam.filter (fun q => decide (q.topic = t))).length = 3 ∧
    (exam.filter (fun q => decide (q.topic = t ∧ q.difficulty = .easy))).length = 1 ∧
    (exam.filter (fun q => decide (q.topic = t ∧ q.difficulty = .medium))).length = 1 ∧
    (exam.filter (fun q => decide (q.topic = t ∧ q.difficulty = .hard))).length = 1 := by
  unfold build_diagnostic_exam at hrun
  obtain ⟨ex, hex, rfl⟩ := Option.map_eq_some'.mp hrun
  have htmem : t ∈ TOPICS bank := by
    rcases List.exists_mem_of_ne_nil _ he with ⟨q, hq⟩
    exact mem_TOPICS.mpr ⟨q, (mem_bucket.mp hq).1, (mem_bucket.mp hq).2.1⟩
  have hlen : ∀ P : Question → Bool,
      ((shuffle ex).filter P).length = (ex.filter P).length :=
    fun P => ((hsh ex).filter P).length_eq
  have hfull := @pickForTopic_full bank t (r t) (stream t) fuel he hm hh
  have hce := mem_bucket.mp (nthChoice_mem he (r t .easy))
  have hcm := mem_bucket.mp (nthChoice_mem hm (r t .medium))
  have hch := mem_bucket.mp (nthChoice_mem hh (r t .hard))
  refine ⟨?_, ?_, ?_, ?_⟩
  · obtain ⟨l, hl, hf⟩ := examPicks_filter_count bank r stream fuel
      (fun q => decide (q.topic = t)) t (fun q h => of_decide_eq_true h)
      (TOPICS bank) ex (TOPICS_nodup bank) htmem hex
    rw [hfull] at hl
    injection hl with hl
    subst hl
    rw [hlen, hf]
    simp [hce.2.1, hcm.2.1, hch.2.1]
  · obtain ⟨l, hl, hf⟩ := examPicks_filter_count bank r stream fuel
      (fun q => decide (q.topic = t ∧ q.difficulty = .easy)) t
      (fun q h => (of_decide_eq_true h).1)
      (TOPICS bank) ex (TOPICS_nodup bank) htmem hex
    rw [hfull] at hl
    injection hl with hl
    subst hl
    rw [hlen, hf]
    simp [hce.2.1, hcm.2.1, hch.2.1, hce.2.2, hcm.2.2, hch.2.2]
  · obtain ⟨l, hl, hf⟩ := examPicks_filter_count bank r stream fuel
      (fun q => decide (q.topic = t ∧ q.difficulty = .medium)) t
      (fun q h => (of_decide_eq_true h).1)
      (TOPICS bank) ex (TOPICS_nodup bank) htmem hex
    rw [hfull] at hl
    injection hl with hl
    subst hl
    rw [hlen, hf]
    simp [hce.2.1, hcm.2.1, hch.2.1, hce.2.2, hcm.2.2, hch.2.2]
  · obtain ⟨l, hl, hf⟩ := examPicks_filter_count bank r stream fuel
      (fun q => decide (q.topic = t ∧ q.difficulty = .hard)) t
      (fun q h => (of_decide_eq_true h).1)
      (TOPICS bank) ex (TOPICS_nodup bank) htmem hex
    rw [hfull] at hl
    injection hl with hl
    subst hl
    rw [hlen, hf]
    simp [hce.2.1, hcm.2.1, hch.2.1, hce.2.2, hcm.2.2, hch.2.2]

/-- A three-question bank: one topic with one question per difficulty. -/
def qGe : Question :=
  { id := "g1", topic := "Geo", difficulty := .easy, question := "q1",
    options := ["a", "b"], answer := "a", explanation := "e" }

def qGm : Question :=
  { id := "g2", topic := "Geo", difficulty := .medium, question := "q2",
    options := ["a", "b"], answer := "a", explanation := "e" }

def qGh : Question :=
  { id := "g3", topic := "Geo", difficulty := .hard, question := "q3",
    options := ["a", "b"], answer := "a", explanation := "e" }

def B3 : List Question := [qGe, qGm, qGh]

lemma TOPICS_B3 : TOPICS B3 = ["Geo"] := by
  simp [TOPICS, B3, qGe, qGm, qGh, List.insertionSort]

lemma bucket_B3_easy : bucket B3 "Geo" .easy = [qGe] := by
  simp [bucket, B3, qGe, qGm, qGh]

lemma bucket_B3_medium : bucket B3 "Geo" .medium = [qGm] := by
  simp [bucket, B3, qGe, qGm, qGh]

lemma bucket_B3_hard : bucket B3 "Geo" .hard = [qGh] := by
  simp [bucket, B3, qGe, qGm, qGh]

/-- A concrete diagnostic-builder run on `B3`. -/
lemma build_B3 :
    build_diagnostic_exam B3 (fun _ _ => 0) (fun _ _ => 0) 0 id
      = some [qGe, qGm, qGh] := by
  unfold build_diagnostic_exam
  rw [TOPICS_B3, examPicks,
    pickForTopic_full (by rw [bucket_B3_easy]; simp) (by rw [bucket_B3_medium]; simp)
      (by rw [bucket_B3_hard]; simp),
    examPicks]
  simp [nthChoice, bucket_B3_easy, bucket_B3_medium, bucket_B3_hard]

theorem build_diagnostic_exam_full_topic_witness :
    (([qGe, qGm, qGh].filter (fun q => decide (q.topic = "Geo"))).length = 3 ∧
     ([qGe, qGm, qGh].filter
       (fun q => decide (q.topic = "Geo" ∧ q.difficulty = .easy))).length = 1 ∧
     ([qGe, qGm, qGh].filter
       (fun q => decide (q.topic = "Geo" ∧ q.difficulty = .medium))).length = 1 ∧
     ([qGe, qGm, qGh].filter
       (fun q => decide (q.topic = "Geo" ∧ q.difficulty = .hard))).length = 1) :=
  build_diagnostic_exam_full_topic B3 (fun _ _ => 0) (fun _ _ => 0) 0 id
    [qGe, qGm, qGh] "Geo" (by rw [bucket_B3_easy]; simp)
    (by rw [bucket_B3_medium]; simp) (by rw [bucket_B3_hard]; simp)
    (fun l => List.Perm.refl l) build_B3

theorem build_diagnostic_exam_nodup_witness : ([qGe, qGm, qGh] : List Question).Nodup :=
  build_diagnostic_exam_nodup B3 (fun _ _ => 0) (fun _ _ => 0) 0 id
    [qGe, qGm, qGh] (fun l => List.Perm.refl l) build_B3

/-! ### The session state machine invariant -/

/-- The inductive invariant of a session state: the position never passes
the question count, completion holds exactly at the end, and the score is
at most the position plus one pending answered question. -/
def sessionInv (p : Session × Stats) : Prop :=
  p.1.i ≤ p.1.questions.length ∧
  (p.1.done = true ↔ p.1.i = p.1.questions.length) ∧
  p.1.score ≤ p.1.i + (if p.1.answered = true then 1 else 0)

lemma applyOp_inv (bank : List Question) (op : Op) (p : Session × Stats)
    (hinv : sessionInv p) : sessionInv (applyOp bank op p) := by
  obtain ⟨h1, h2, h3⟩ := hinv
  cases op with
  | submit choice =>
    show sessionInv ((submit bank choice p.1 p.2).getD p)
    cases hsub : submit bank choice p.1 p.2 with
    | none => exact ⟨h1, h2, h3⟩
    | some p' =>
      rw [Option.getD_some]
      unfold submit at hsub
      by_cases hd : p.1.done = true
      · rw [if_pos hd] at hsub; cases hsub
      · rw [if_neg hd] at hsub
        by_cases ha : p.1.answered = true
        · rw [if_pos ha] at hsub; cases hsub
        · rw [if_neg ha] at hsub
          cases hrec : record_answer bank p.2
              (p.1.questions.getD p.1.i defaultQuestion).topic
              (decide (choice = (p.1.questions.getD p.1.i defaultQuestion).answer)) with
          | none => rw [hrec] at hsub; cases hsub
          | some st2 =>
            rw [hrec] at hsub
            injection hsub with hsub
            subst hsub
            refine ⟨h1, h2, ?_⟩
            show (if decide (choice = (p.1.questions.getD p.1.i defaultQuestion).answer)
                = true then p.1.score + 1 else p.1.score)
              ≤ p.1.i + (if true = true then 1 else 0)
            rw [if_pos rfl]
            rw [if_neg ha] at h3
            by_cases hc : decide (choice
                = (p.1.questions.getD p.1.i defaultQuestion).answer) = true
            · rw [if_pos hc]
              omega
            · rw [if_neg hc]
              omega
  | advance =>
    show sessionInv ((advance p.1 p.2).getD p)
    cases hadv : advance p.1 p.2 with
    | none => exact ⟨h1, h2, h3⟩
    | some p' =>
      rw [Option.getD_some]
      unfold advance at hadv
      by_cases hd : p.1.done = true
      · rw [if_pos hd] at hadv; cases hadv
      · rw [if_neg hd] at hadv
        by_cases ha : p.1.answered = true
        · rw [if_pos ha] at hadv
          injection hadv with hadv
          subst hadv
          have hlt : p.1.i < p.1.questions.length := by
            rcases Nat.lt_or_ge p.1.i p.1.questions.length with h | h
            · exact h
            · exact absurd (h2.mpr (le_antisymm h1 h)) hd
          refine ⟨hlt, ?_, ?_⟩
          · show decide (p.1.questions.length ≤ p.1.i + 1) = true ↔
              p.1.i + 1 = p.1.questions.length
            rw [decide_eq_true_eq]
            omega
          · show p.1.score ≤ p.1.i + 1 + (if false = true then 1 else 0)
            rw [if_pos ha] at h3
            rw [if_neg (Bool.false_ne_true)]
            omega
        · rw [if_neg ha] at hadv; cases hadv

lemma runOps_inv (bank : List Question) :
    ∀ (ops : List Op) (p : Session × Stats),
      sessionInv p → sessionInv (runOps bank ops p) := by
  intro ops
  induction ops with
  | nil => intro p h; exact h
  | cons op ops ih =>
    intro p h
    have hstep : runOps bank (op :: ops) p = runOps bank ops (applyOp bank op p) := by
      unfold runOps
      rw [List.foldl_cons]
    rw [hstep]
    exact ih _ (applyOp_inv bank op p h)

/-- Claim C4 (amended): in every state reachable from a fresh session on a
nonempty question list by Submit and Next operations, `0 ≤ position` (a
`Nat`) and `position ≤ len(questions)` hold, the completion flag holds
exactly when the position equals the question count, and the score is at
most `position + 1`, with `score ≤ position` whenever `is_answered` is
false.  (As literally stated the claim fails: between Submit and Next,
`score` can exceed `position` by one.) -/
theorem session_invariant (bank : List Question) (qs : List Question) (st : Stats)
    (ops : List Op) (hqs : qs ≠ []) :
    (runOps bank ops (start_exam_session qs, st)).1.i
        ≤ (runOps bank ops (start_exam_session qs, st)).1.questions.length ∧
    ((runOps bank ops (start_exam_session qs, st)).1.done = true ↔
      (runOps bank ops (start_exam_session qs, st)).1.i
        = (runOps bank ops (start_exam_session qs, st)).1.questions.length) ∧
    (runOps bank ops (start_exam_session qs, st)).1.score
      ≤ (runOps bank ops (start_exam_session qs, st)).1.i
        + (if (runOps bank ops (start_exam_session qs, st)).1.answered = true
           then 1 else 0) ∧
    ((runOps bank ops (start_exam_session qs, st)).1.answered = false →
      (runOps bank ops (start_exam_session qs, st)).1.score
        ≤ (runOps bank ops (start_exam_session qs, st)).1.i) := by
  have hbase : sessionInv (start_exam_session qs, st) := by
    refine ⟨Nat.zero_le _, ?_, by simp [start_exam_session]⟩
    simp only [start_exam_session]
    constructor
    · intro h; exact absurd h Bool.false_ne_true
    · intro h
      exact absurd h.symm (List.length_pos.mpr hqs).ne'
  obtain ⟨h1, h2, h3⟩ := runOps_inv bank ops _ hbase
  refine ⟨h1, h2, h3, fun hans => ?_⟩
  rw [hans] at h3
  simpa using h3

/-- Counterexample to claim C4 as stated: after submitting a correct
answer (and before advancing), the reachable state has `score = 1` while
`position = 0`, so `score ≤ position` does not hold at every point. -/
theorem session_score_cex :
    (runOps B1 [Op.submit "a"] (start_exam_session B1, init_global_stats)).1.i
      < (runOps B1 [Op.submit "a"] (start_exam_session B1, init_global_stats)).1.score := by
  decide

theorem session_invariant_witness :
    (runOps B1 [Op.submit "a", Op.advance]
        (start_exam_session B1, init_global_stats)).1.i
        ≤ (runOps B1 [Op.submit "a", Op.advance]
            (start_exam_session B1, init_global_stats)).1.questions.length ∧
    ((runOps B1 [Op.submit "a", Op.advance]
        (start_exam_session B1, init_global_stats)).1.done = true ↔
      (runOps B1 [Op.submit "a", Op.advance]
          (start_exam_session B1, init_global_stats)).1.i
        = (runOps B1 [Op.submit "a", Op.advance]
            (start_exam_session B1, init_global_stats)).1.questions.length) ∧
    (runOps B1 [Op.submit "a", Op.advance]
        (start_exam_session B1, init_global_stats)).1.score
      ≤ (runOps B1 [Op.submit "a", Op.advance]
          (start_exam_session B1, init_global_stats)).1.i
        + (if (runOps B1 [Op.submit "a", Op.advance]
              (start_exam_session B1, init_global_stats)).1.answered = true
           then 1 else 0) ∧
    ((runOps B1 [Op.submit "a", Op.advance]
        (start_exam_session B1, init_global_stats)).1.answered = false →
      (runOps B1 [Op.submit "a", Op.advance]
          (start_exam_session B1, init_global_stats)).1.score
        ≤ (runOps B1 [Op.submit "a", Op.advance]
            (start_exam_session B1, init_global_stats)).1.i) :=
  session_invariant B1 B1 init_global_stats [Op.submit "a", Op.advance] (by decide)

/-! ### Facts about the practice sampler -/

lemma pyRound_le {x : ℚ} {c : ℤ} (h : x ≤ (c : ℚ)) : pyRound x ≤ c := by
  unfold pyRound
  have hf : ⌊x⌋ ≤ c := by
    have := Int.floor_mono h
    rwa [Int.floor_intCast] at this
  split_ifs with h1 h2 h3
  · exact hf
  · by_contra hcon
    have hfc : ⌊x⌋ = c := by omega
    rw [hfc] at h2
    have hcx : (c : ℚ) < x := by linarith
    linarith
  · exact hf
  · by_contra hcon
    have hfc : ⌊x⌋ = c := by omega
    rw [hfc] at h1 h2
    have hx : x - (c : ℚ) = 1/2 := by linarith
    linarith

lemma pyRound_nonneg {x : ℚ} (h : 0 ≤ x) : 0 ≤ pyRound x := by
  unfold pyRound
  have hf : 0 ≤ ⌊x⌋ := Int.floor_nonneg.mpr h
  split_ifs <;> omega

lemma nWeakTarget_le {bank : List Question} {n0 : Nat} (h : 1 ≤ clampN bank n0) :
    nWeakTarget bank n0 ≤ clampN bank n0 := by
  unfold nWeakTarget
  have h7 : 7 * (clampN bank n0 : ℚ) / 10 ≤ ((clampN bank n0 : ℤ) : ℚ) := by
    push_cast
    have hpos : (0 : ℚ) ≤ (clampN bank n0 : ℚ) := by positivity
    linarith
  have hle := pyRound_le h7
  apply max_le h
  exact Int.toNat_le.mpr hle

lemma mem_weakPool {bank : List Question} {stats : Stats} {q : Question} :
    q ∈ weakPool bank stats ↔ q ∈ bank ∧
      q.topic ∈ weakest_topics bank stats WEAK_THRESHOLD WEAK_MAX_TOPICS := by
  simp [weakPool, List.mem_filter]

lemma mem_otherPool {bank : List Question} {stats : Stats} {q : Question} :
    q ∈ otherPool bank stats ↔ q ∈ bank ∧
      q.topic ∉ weakest_topics bank stats WEAK_THRESHOLD WEAK_MAX_TOPICS := by
  simp [otherPool, List.mem_filter]

lemma length_filter_not_mem {bank sel : List Question} (hbank : bank.Nodup)
    (hsel : sel.Nodup) (hsub : ∀ q ∈ sel, q ∈ bank) :
    (bank.filter (fun q => decide (q ∉ sel))).length = bank.length - sel.length := by
  have h1 : (bank.filter (fun q => decide (q ∈ sel))).length = sel.length := by
    apply le_antisymm
    · exact (List.subperm_of_subset (hbank.filter _)
        (fun q hq => of_decide_eq_true (List.mem_filter.mp hq).2)).length_le
    · exact (List.subperm_of_subset hsel
        (fun q hq => List.mem_filter.mpr ⟨hsub q hq, decide_eq_true hq⟩)).length_le
  have h2 := (List.filter_append_perm (fun q => decide (q ∈ sel)) bank).length_eq
  rw [List.length_append] at h2
  have h3 : bank.filter (fun q => !decide (q ∈ sel))
      = bank.filter (fun q => decide (q ∉ sel)) := by
    apply List.filter_congr
    intro q _
    simp [decide_not]
  rw [h3] at h2
  omega

lemma fillFrom_spec (sample : Nat → List Question → Nat → List Question) (tag : Nat)
    (pool0 : List Question) (n : Nat) (sel : List Question)
    (hs : SampleValid sample) (hp0 : pool0.Nodup) (hsel : sel.Nodup) :
    ∃ added : List Question,
      fillFrom sample tag pool0 n sel = sel ++ added ∧
      (∀ q ∈ added, q ∈ pool0 ∧ q ∉ sel) ∧
      (fillFrom sample tag pool0 n sel).Nodup ∧
      (fillFrom sample tag pool0 n sel).length ≤ max sel.length n := by
  unfold fillFrom
  by_cases hlt : sel.length < n
  · rw [if_pos hlt]
    by_cases hp : pool0.filter (fun q => decide (q ∉ sel)) = []
    · rw [if_pos hp]
      exact ⟨[], by simp, by simp, hsel, le_max_left _ _⟩
    · rw [if_neg hp]
      have hk : min (n - sel.length) (pool0.filter (fun q => decide (q ∉ sel))).length
          ≤ (pool0.filter (fun q => decide (q ∉ sel))).length := min_le_right _ _
      obtain ⟨hlen, hmem, hnd⟩ := hs tag _ _ hk
      refine ⟨_, rfl, ?_, ?_, ?_⟩
      · intro q hq
        have hq' := List.mem_filter.mp (hmem q hq)
        exact ⟨hq'.1, of_decide_eq_true hq'.2⟩
      · rw [List.nodup_append]
        refine ⟨hsel, hnd (hp0.filter _), ?_⟩
        intro a ha hb
        exact of_decide_eq_true (List.mem_filter.mp (hmem a hb)).2 ha
      · rw [List.length_append, hlen]
        have hmin : min (n - sel.length)
            (pool0.filter (fun q => decide (q ∉ sel))).length ≤ n - sel.length :=
          min_le_left _ _
        apply le_max_of_le_right
        omega
  · rw [if_neg hlt]
    exact ⟨[], by simp, by simp, hsel, le_max_left _ _⟩

lemma fillFrom_complete (sample : Nat → List Question → Nat → List Question)
    (tag : Nat) (bank : List Question) (n : Nat) (sel : List Question)
    (hs : SampleValid sample) (hbank : bank.Nodup) (hsel : sel.Nodup)
    (hsub : ∀ q ∈ sel, q ∈ bank) (hn : n ≤ bank.length) (hle : sel.length ≤ n) :
    (fillFrom sample tag bank n sel).length = n := by
  unfold fillFrom
  by_cases hlt : sel.length < n
  · rw [if_pos hlt]
    have hflen : (bank.filter (fun q => decide (q ∉ sel))).length
        = bank.length - sel.length := length_filter_not_mem hbank hsel hsub
    have hne : bank.filter (fun q => decide (q ∉ sel)) ≠ [] := by
      intro h0
      rw [h0] at hflen
      simp at hflen
      omega
    rw [if_neg hne]
    obtain ⟨hlen, _, _⟩ := hs tag _ _ (min_le_right _ _)
    rw [List.length_append, hlen, hflen,
      min_eq_left (by omega : n - sel.length ≤ bank.length - sel.length)]
    omega
  · rw [if_neg hlt]
    omega

lemma fillFrom_of_ge {sample : Nat → List Question → Nat → List Question}
    {tag : Nat} {pool0 : List Question} {n : Nat} {sel : List Question}
    (h : ¬ sel.length < n) : fillFrom sample tag pool0 n sel = sel := by
  unfold fillFrom
  rw [if_neg h]

/-- Claim C6 (amended): with at least one recorded answer, at least one
weak topic and a requested count `n ≥ 1` (the spec clamps the request to
at least 1), the practice set is duplicate-free and has length
`min(n, bank size)`; and when the weak pool holds at least
`max(1, round(0.7 n))` questions and the non-weak pool holds at least
`min(n, bank size) - max(1, round(0.7 n))` questions, the set contains
exactly `max(1, round(0.7 n))` weak-topic questions.  (As literally
stated the claim fails: when the non-weak pool is too small the
falls back to the whole bank and draws additional weak questions.) -/
theorem personalized_questions_spec (bank : List Question) (stats : Stats)
    (sample : Nat → List Question → Nat → List Question)
    (shuffle : List Question → List Question) (n0 : Nat)
    (hs : SampleValid sample)
    (hsh : ∀ l, List.Perm (shuffle l) l)
    (hbank : bank.Nodup)
    (hdata : sumTotals bank stats ≠ 0)
    (hweak : weakest_topics bank stats WEAK_THRESHOLD WEAK_MAX_TOPICS ≠ [])
    (hn : 1 ≤ n0) :
    (personalized_questions bank stats sample shuffle n0).Nodup ∧
    (personalized_questions bank stats sample shuffle n0).length
      = min n0 bank.length ∧
    (nWeakTarget bank n0 ≤ (weakPool bank stats).length →
      clampN bank n0 - nWeakTarget bank n0 ≤ (otherPool bank stats).length →
      ((personalized_questions bank stats sample shuffle n0).filter
        (fun q => decide
          (q.topic ∈ weakest_topics bank stats WEAK_THRESHOLD WEAK_MAX_TOPICS))).length
        = nWeakTarget bank n0) := by
  have hout : personalized_questions bank stats sample shuffle n0 =
      shuffle (fillFrom sample 4 bank (clampN bank n0)
        (fillFrom sample 3
          (if otherPool bank stats = [] then bank else otherPool bank stats)
          (clampN bank n0)
          (sample 2 (weakPool bank stats)
            (min (nWeakTarget bank n0) (weakPool bank stats).length)))) := by
    unfold personalized_questions
    rw [if_neg hdata, if_neg hweak]
  have hbne : bank ≠ [] := by
    intro hb
    apply hweak
    subst hb
    rfl
  have hn1 : 1 ≤ clampN bank n0 := le_min hn (List.length_pos.mpr hbne)
  have htn : nWeakTarget bank n0 ≤ clampN bank n0 := nWeakTarget_le hn1
  have hnlen : clampN bank n0 ≤ bank.length := min_le_right _ _
  have hwqnd : (weakPool bank stats).Nodup := hbank.filter _
  have hk1 : min (nWeakTarget bank n0) (weakPool bank stats).length
      ≤ (weakPool bank stats).length := min_le_right _ _
  obtain ⟨hlen1, hmem1, hnd1'⟩ := hs 2 (weakPool bank stats) _ hk1
  have hnd1 : (sample 2 (weakPool bank stats)
      (min (nWeakTarget bank n0) (weakPool bank stats).length)).Nodup := hnd1' hwqnd
  have hsub1 : ∀ q ∈ sample 2 (weakPool bank stats)
      (min (nWeakTarget bank n0) (weakPool bank stats).length), q ∈ bank :=
    fun q hq => (mem_weakPool.mp (hmem1 q hq)).1
  have hsel1w : ∀ q ∈ sample 2 (weakPool bank stats)
      (min (nWeakTarget bank n0) (weakPool bank stats).length),
      q.topic ∈ weakest_topics bank stats WEAK_THRESHOLD WEAK_MAX_TOPICS :=
    fun q hq => (mem_weakPool.mp (hmem1 q hq)).2
  have hlen1n : (sample 2 (weakPool bank stats)
      (min (nWeakTarget bank n0) (weakPool bank stats).length)).length
      ≤ clampN bank n0 := by
    rw [hlen1]
    exact le_trans (min_le_left _ _) htn
  have hp2nd : (if otherPool bank stats = [] then bank
      else otherPool bank stats).Nodup := by
    split_ifs
    · exact hbank
    · exact hbank.filter _
  have hp2sub : ∀ q ∈ (if otherPool bank stats = [] then bank
      else otherPool bank stats), q ∈ bank := by
    split_ifs with h
    · exact fun q hq => hq
    · exact fun q hq => (mem_otherPool.mp hq).1
  obtain ⟨added2, heq2, hadd2, hnd2, hlen2⟩ := fillFrom_spec sample 3
    (if otherPool bank stats = [] then bank else otherPool bank stats)
    (clampN bank n0)
    (sample 2 (weakPool bank stats)
      (min (nWeakTarget bank n0) (weakPool bank stats).length)) hs hp2nd hnd1
  have hsub2 : ∀ q ∈ fillFrom sample 3
      (if otherPool bank stats = [] then bank else otherPool bank stats)
      (clampN bank n0)
      (sample 2 (weakPool bank stats)
        (min (nWeakTarget bank n0) (weakPool bank stats).length)), q ∈ bank := by
    rw [heq2]
    intro q hq
    rcases List.mem_append.mp hq with h | h
    · exact hsub1 q h
    · exact hp2sub q (hadd2 q h).1
  have hlen2n : (fillFrom sample 3
      (if otherPool bank stats = [] then bank else otherPool bank stats)
      (clampN bank n0)
      (sample 2 (weakPool bank stats)
        (min (nWeakTarget bank n0) (weakPool bank stats).length))).length
      ≤ clampN bank n0 := by
    rw [max_eq_right hlen1n] at hlen2
    exact hlen2
  have hlen3 : (fillFrom sample 4 bank (clampN bank n0)
      (fillFrom sample 3
        (if otherPool bank stats = [] then bank else otherPool bank stats)
        (clampN bank n0)
        (sample 2 (weakPool bank stats)
          (min (nWeakTarget bank n0) (weakPool bank stats).length)))).length
      = clampN bank n0 :=
    fillFrom_complete sample 4 bank _ _ hs hbank hnd2 hsub2 hnlen hlen2n
  obtain ⟨added3, heq3, hadd3, hnd3, _⟩ := fillFrom_spec sample 4 bank
    (clampN bank n0)
    (fillFrom sample 3
      (if otherPool bank stats = [] then bank else otherPool bank stats)
      (clampN bank n0)
      (sample 2 (weakPool bank stats)
        (min (nWeakTarget bank n0) (weakPool bank stats).length)))
    hs hbank hnd2
  have hperm := hsh (fillFrom sample 4 bank (clampN bank n0)
    (fillFrom sample 3
      (if otherPool bank stats = [] then bank else otherPool bank stats)
      (clampN bank n0)
      (sample 2 (weakPool bank stats)
        (min (nWeakTarget bank n0) (weakPool bank stats).length))))
  refine ⟨?_, ?_, ?_⟩
  · rw [hout]
    exact (hperm.nodup_iff).mpr hnd3
  · rw [hout, hperm.length_eq, hlen3]
    rfl
  · intro hwq hoq2
    rw [hout, (hperm.filter _).length_eq]
    have hmin1 : min (nWeakTarget bank n0) (weakPool bank stats).length
        = nWeakTarget bank n0 := min_eq_left hwq
    have hlen1t : (sample 2 (weakPool bank stats)
        (min (nWeakTarget bank n0) (weakPool bank stats).length)).length
        = nWeakTarget bank n0 := by
      rw [hlen1, hmin1]
    by_cases htn' : nWeakTarget bank n0 < clampN bank n0
    · have hoqne : otherPool bank stats ≠ [] := by
        intro h0
        rw [h0] at hoq2
        simp at hoq2
        omega
      have hfil : (otherPool bank stats).filter
          (fun q => decide (q ∉ sample 2 (weakPool bank stats)
            (min (nWeakTarget bank n0) (weakPool bank stats).length)))
          = otherPool bank stats := by
        rw [List.filter_eq_self]
        intro q hq
        apply decide_eq_true
        intro hq1
        exact (mem_otherPool.mp hq).2 (hsel1w q hq1)
      have hsel2eq : fillFrom sample 3
          (if otherPool bank stats = [] then bank else otherPool bank stats)
          (clampN bank n0)
          (sample 2 (weakPool bank stats)
            (min (nWeakTarget bank n0) (weakPool bank stats).length))
          = sample 2 (weakPool bank stats)
              (min (nWeakTarget bank n0) (weakPool bank stats).length)
            ++ sample 3 (otherPool bank stats)
                (clampN bank n0 - nWeakTarget bank n0) := by
        rw [if_neg hoqne]
        unfold fillFrom
        rw [if_pos (by omega : (sample 2 (weakPool bank stats)
          (min (nWeakTarget bank n0) (weakPool bank stats).length)).length
            < clampN bank n0)]
        rw [hfil, if_neg hoqne, hlen1t, min_eq_left hoq2]
      obtain ⟨hlen4, hmem4, _⟩ := hs 3 (otherPool bank stats)
        (clampN bank n0 - nWeakTarget bank n0) hoq2
      have hsel2len : (fillFrom sample 3
          (if otherPool bank stats = [] then bank else otherPool bank stats)
          (clampN bank n0)
          (sample 2 (weakPool bank stats)
            (min (nWeakTarget bank n0) (weakPool bank stats).length))).length
          = clampN bank n0 := by
        rw [hsel2eq, List.length_append, hlen1t, hlen4]
        omega
      have hsel3eq : fillFrom sample 4 bank (clampN bank n0)
          (fillFrom sample 3
            (if otherPool bank stats = [] then bank else otherPool bank stats)
            (clampN bank n0)
            (sample 2 (weakPool bank stats)
              (min (nWeakTarget bank n0) (weakPool bank stats).length)))
          = fillFrom sample 3
              (if otherPool bank stats = [] then bank else otherPool bank stats)
              (clampN bank n0)
              (sample 2 (weakPool bank stats)
                (min (nWeakTarget bank n0) (weakPool bank stats).length)) :=
        fillFrom_of_ge (by omega)
      rw [hsel3eq, hsel2eq, List.filter_append]
      rw [List.filter_eq_self.mpr (fun q hq => decide_eq_true (hsel1w q hq))]
      have h40 : (sample 3 (otherPool bank stats)
          (clampN bank n0 - nWeakTarget bank n0)).filter
          (fun q => decide (q.topic
            ∈ weakest_topics bank stats WEAK_THRESHOLD WEAK_MAX_TOPICS)) = [] := by
        rw [List.filter_eq_nil_iff]
        intro q hq hPq
        exact (mem_otherPool.mp (hmem4 q hq)).2 (of_decide_eq_true hPq)
      rw [h40, List.append_nil]
      exact hlen1t
    · have hteq : nWeakTarget bank n0 = clampN bank n0 :=
        le_antisymm htn (le_of_not_lt htn')
      have hsel2eq : fillFrom sample 3
          (if otherPool bank stats = [] then bank else otherPool bank stats)
          (clampN bank n0)
          (sample 2 (weakPool bank stats)
            (min (nWeakTarget bank n0) (weakPool bank stats).length))
          = sample 2 (weakPool bank stats)
              (min (nWeakTarget bank n0) (weakPool bank stats).length) :=
        fillFrom_of_ge (by omega)
      have hsel3eq : fillFrom sample 4 bank (clampN bank n0)
          (fillFrom sample 3
            (if otherPool bank stats = [] then bank else otherPool bank stats)
            (clampN bank n0)
            (sample 2 (weakPool bank stats)
              (min (nWeakTarget bank n0) (weakPool bank stats).length)))
          = sample 2 (weakPool bank stats)
              (min (nWeakTarget bank n0) (weakPool bank stats).length) := by
        rw [hsel2eq]
        exact fillFrom_of_ge (by omega)
      rw [hsel3eq]
      rw [List.filter_eq_self.mpr (fun q hq => decide_eq_true (hsel1w q hq))]
      exact hlen1t

/-- A bank whose every question belongs to the single weak topic. -/
def qM1 : Question :=
  { id := "m1", topic := "Math", difficulty := .easy, question := "q1",
    options := ["a", "b"], answer := "a", explanation := "e" }

def qM2 : Question :=
  { id := "m2", topic := "Math", difficulty := .medium, question := "q2",
    options := ["a", "b"], answer := "b", explanation := "e" }

def B2M : List Question := [qM1, qM2]

/-- Stats with one recorded (incorrect) answer on "Math". -/
def statsM : Stats :=
  { topic_correct := fun _ => 0,
    topic_total := fun t => if t = "Math" then 1 else 0 }

lemma TOPICS_B2M : TOPICS B2M = ["Math"] := by
  simp [TOPICS, B2M, qM1, qM2, List.insertionSort]

lemma weakest_B2M :
    weakest_topics B2M statsM WEAK_THRESHOLD WEAK_MAX_TOPICS = ["Math"] := by
  have h : ((0 : ℚ) < 7/10) := by norm_num
  simp [weakest_topics, TOPICS_B2M, compute_accuracies, statsM, WEAK_THRESHOLD,
    WEAK_MAX_TOPICS, h, List.insertionSort]

lemma weakPool_B2M : weakPool B2M statsM = [qM1, qM2] := by
  unfold weakPool
  rw [weakest_B2M]
  decide

lemma otherPool_B2M : otherPool B2M statsM = [] := by
  unfold otherPool
  rw [weakest_B2M]
  decide

lemma nWeakTarget_B2M : nWeakTarget B2M 2 = 1 := by
  have hclamp : clampN B2M 2 = 2 := rfl
  unfold nWeakTarget pyRound
  rw [hclamp]
  have hfl : ⌊7 * ((2 : ℕ) : ℚ) / 10⌋ = 1 := by
    rw [Int.floor_eq_iff]
    norm_num
  rw [hfl]
  norm_num

lemma run_B2M : personalized_questions B2M statsM takeSample id 2 = [qM1, qM2] := by
  have hclamp : clampN B2M 2 = 2 := rfl
  unfold personalized_questions
  rw [if_neg (by decide : ¬ (sumTotals B2M statsM = 0)), weakest_B2M,
    if_neg (by simp : ¬ ((["Math"] : List String) = []))]
  simp only [weakPool_B2M, otherPool_B2M, nWeakTarget_B2M, hclamp]
  decide

/-- Counterexample to claim C6 as stated: a one-recorded-answer state with
the single weak topic "Math" and a bank of two "Math" questions.  The
weak pool holds at least `max(1, round(0.7 * 2)) = 1` question, yet the
practice set contains two weak-topic questions, not exactly one: the
other pool is empty, so the source falls back to the whole bank and draws
a second weak question. -/
theorem personalized_weak_count_cex :
    sumTotals B2M statsM ≠ 0 ∧
    weakest_topics B2M statsM WEAK_THRESHOLD WEAK_MAX_TOPICS ≠ [] ∧
    nWeakTarget B2M 2 ≤ (weakPool B2M statsM).length ∧
    ((personalized_questions B2M statsM takeSample id 2).filter
      (fun q => decide (q.topic
        ∈ weakest_topics B2M statsM WEAK_THRESHOLD WEAK_MAX_TOPICS))).length
      ≠ nWeakTarget B2M 2 := by
  refine ⟨by decide, ?_, ?_, ?_⟩
  · rw [weakest_B2M]; simp
  · rw [nWeakTarget_B2M, weakPool_B2M]; simp
  · rw [run_B2M, weakest_B2M, nWeakTarget_B2M]
    decide

theorem personalized_questions_spec_witness :
    (personalized_questions B2M statsM takeSample id 2).Nodup ∧
    (personalized_questions B2M statsM takeSample id 2).length
      = min 2 B2M.length ∧
    (nWeakTarget B2M 2 ≤ (weakPool B2M statsM).length →
      clampN B2M 2 - nWeakTarget B2M 2 ≤ (otherPool B2M statsM).length →
      ((personalized_questions B2M statsM takeSample id 2).filter
        (fun q => decide (q.topic
          ∈ weakest_topics B2M statsM WEAK_THRESHOLD WEAK_MAX_TOPICS))).length
        = nWeakTarget B2M 2) :=
  personalized_questions_spec B2M statsM takeSample id 2 takeSample_valid
    (fun l => List.Perm.refl l) (by decide) (by decide)
    (by rw [weakest_B2M]; simp) (by norm_num)
